import Mathlib

/-!
# allmark: live update hub and latest-items paging

A shallow embedding of `ui/web/server/update/hub.go` (the update hub's
decision loop, `connectionsByRoute`, `Subscribe`, `Unsubscribe`) and of
`ViewModelOrchestrator.GetLatest` with the methods it calls (`GetViewModel`,
`getViewModel`, `getChildModels`) from `web/orchestrator/viewmodel.go`,
followed by the properties established about them.

Go pointers `*connection` are handles (natural numbers) into a store of
connection objects; Go panics are an explicit outcome carrying the store as it
was when the panic was raised.
-/

namespace update

/-! ## Data model -/

/-- A route of package `common/route`; the hub only ever reads `Value()`. -/
structure Route where
  Value : String
deriving DecidableEq

/-- A message of package `update`: the hub only reads the field `Route`. -/
structure Message where
  Route : Route
  payload : String
deriving DecidableEq

/-- A buffered Go channel `chan Message` (capacity at least 1, as outboxes
are): capacity fixed by `make`, the buffered elements oldest first, and
whether `close` has been called. -/
structure Chan where
  cap : Nat
  buf : List Message
  closed : Bool
deriving DecidableEq

/-- The websocket owned by a connection, as far as the hub and the drain task
touch it: the messages written to it and the number of `Close()` calls
dispatched on it. -/
structure Transport where
  written : List Message
  closeCalls : Nat
deriving DecidableEq

/-- The connection object: fields `Route`, `send` and `ws` as used by hub.go. -/
structure connection where
  Route : Route
  send : Chan
  ws : Transport
deriving DecidableEq

/-- A handle `*connection`. -/
abbrev Conn := Nat

/-- The hub together with the store its connection pointers refer to.
`connections` is the key set of `map[*connection]bool` (all stored values are
`true`), in the order the next `range` visits it; keys of a map are
distinct. -/
structure Hub where
  connections : List Conn
  nodup : connections.Nodup
  mem : Conn → connection

/-- Result of running hub code: normal completion, or a Go panic with the
state reached when it was raised. -/
inductive Outcome where
  | ok (hub : Hub)
  | panic (hub : Hub)

/-- The state an outcome carries. -/
def Outcome.hub : Outcome → Hub
  | .ok h => h
  | .panic h => h

/-- Whether the outcome is a normal completion. -/
def Outcome.isOk : Outcome → Bool
  | .ok _ => true
  | .panic _ => false

/-- The three requests the decision loop receives from its channels. -/
inductive Event where
  | subscribe (c : Conn)
  | unsubscribe (c : Conn)
  | broadcast (m : Message)
deriving DecidableEq

/-- One scheduling step of the system: the decision loop handles a request,
the drain task of a connection receives one message from its outbox, or the
order in which a `range` over the `connections` map visits its keys changes
(Go leaves it unspecified from one iteration to the next). -/
inductive Action where
  | event (e : Event)
  | drain (c : Conn)
  | reorder (l : List Conn)
deriving DecidableEq

/-! ## Operations -/

/-- The hub built by `NewHub`: an empty `connections` map. The store of
connection objects is what the transport layer has allocated. -/
def NewHub (mem : Conn → connection) : Hub :=
  { connections := [], nodup := List.nodup_nil, mem := mem }

/-- Overwrite the object behind handle `c`. -/
def Hub.store (hub : Hub) (c : Conn) (v : connection) : Hub :=
  { hub with mem := fun d => if d = c then v else hub.mem d }

/-- Go `delete(hub.connections, c)`. -/
def Hub.delete (hub : Hub) (c : Conn) : Hub :=
  { hub with connections := hub.connections.erase c, nodup := hub.nodup.erase c }

/-- Go `hub.connections[c] = true`. -/
def Hub.register (hub : Hub) (c : Conn) : Hub :=
  { hub with connections := hub.connections.insert c, nodup := hub.nodup.insert }

/-- The method `connectionsByRoute`: the registered connections whose route value equals
that of `route`, appended in visiting order to an initially empty slice. -/
def Hub.connectionsByRoute (hub : Hub) (route : Route) : List Conn :=
  hub.connections.filter (fun c => decide (route.Value = (hub.mem c).Route.Value))

/-- Effect of a successful `c.send <- m` on the connection object: `m` is
appended to the channel buffer. -/
def connection.push (conn : connection) (m : Message) : connection :=
  { conn with send := { conn.send with buf := conn.send.buf ++ [m] } }

/-- Effect of the dispatched `go c.ws.Close()` on the connection object. -/
def connection.closeWs (conn : connection) : connection :=
  { conn with ws := { conn.ws with closeCalls := conn.ws.closeCalls + 1 } }

/-- Whether a non-blocking send finds room in the channel buffer. -/
def connection.hasRoom (conn : connection) : Bool :=
  decide (conn.send.buf.length < conn.send.cap)

/-- Body of the inner `select` of the fan-out loop for one affected connection:
`case c.send <- m:` is taken when the buffer has room (and panics on a closed
channel); otherwise `default:` deletes `c` from the map and dispatches
`go c.ws.Close()`. The outbox is not closed on this path. For a buffered
channel (capacity at least 1) room in the buffer is exactly when a
non-blocking send succeeds; an unbuffered channel, where a send succeeds only
by handing over to a waiting receiver, is outside this description. -/
def Hub.trySend (hub : Hub) (m : Message) (c : Conn) : Outcome :=
  let conn := hub.mem c
  if conn.send.closed then
    .panic hub
  else if conn.hasRoom then
    .ok (hub.store c (conn.push m))
  else
    .ok ((hub.delete c).store c conn.closeWs)

/-- The loop `for _, c := range affectedConnections`. -/
def Hub.fanOut (hub : Hub) (m : Message) : List Conn → Outcome
  | [] => .ok hub
  | c :: cs =>
    match hub.trySend m c with
    | .ok hub1 => Hub.fanOut hub1 m cs
    | .panic hub1 => .panic hub1

/-- Go `close(c.send)`: panics on a channel that is already closed. -/
def Hub.closeSend (hub : Hub) (c : Conn) : Outcome :=
  let conn := hub.mem c
  if conn.send.closed then
    .panic hub
  else
    .ok (hub.store c { conn with send := { conn.send with closed := true } })

/-- One iteration of the `for { select { ... } }` of `Run`, for the request
received. -/
def Hub.handle (hub : Hub) : Event → Outcome
  | .subscribe c => .ok (hub.register c)
  | .unsubscribe c => (hub.delete c).closeSend c
  | .broadcast m => hub.fanOut m (hub.connectionsByRoute m.Route)

/-- Modelled from the spec: the drain task of a connection, whose code (the
writer loop of the connection type) is missing; it "owns reading from outbox
and writing to transport". One step receives the oldest buffered message, if
any, and writes it to the transport. -/
def Hub.drain (hub : Hub) (c : Conn) : Hub :=
  let conn := hub.mem c
  match conn.send.buf with
  | [] => hub
  | m :: rest =>
    hub.store c { conn with
      send := { conn.send with buf := rest }
      ws := { conn.ws with written := conn.ws.written ++ [m] } }

/-- The visiting order of the map becomes `l`, a permutation of its keys (any
other list is ignored). -/
def Hub.reorder (hub : Hub) (l : List Conn) : Hub :=
  if h : l.Perm hub.connections then
    { connections := l, nodup := h.nodup_iff.mpr hub.nodup, mem := hub.mem }
  else hub

/-- One scheduling step. -/
def Hub.exec (hub : Hub) : Action → Outcome
  | .event e => hub.handle e
  | .drain c => .ok (hub.drain c)
  | .reorder l => .ok (hub.reorder l)

/-- The decision loop `Run` on the sequence of requests its `select` receives
(interleaved with drain steps of the connections and changes of the map's
visiting order); a panic ends the loop. -/
def Hub.Run (hub : Hub) : List Action → Outcome
  | [] => .ok hub
  | a :: as =>
    match hub.exec a with
    | .ok hub1 => Hub.Run hub1 as
    | .panic hub1 => .panic hub1

/-- Everything the drain task has written plus what is still buffered: the
sequence of messages ever accepted by the outbox of `c`, oldest first. -/
def Hub.accepted (hub : Hub) (c : Conn) : List Message :=
  (hub.mem c).ws.written ++ (hub.mem c).send.buf

/-- The messages of the fan-out requests of a sequence whose route value is `r`. -/
def broadcastsFor (r : Route) : List Action → List Message
  | [] => []
  | .event (.broadcast m) :: as =>
    if m.Route.Value = r.Value then m :: broadcastsFor r as else broadcastsFor r as
  | _ :: as => broadcastsFor r as

/-- The states the loop passes through while processing a sequence: the
initial one and the one after each step taken. -/
def Hub.states (hub : Hub) : List Action → List Hub
  | [] => [hub]
  | a :: as =>
    match hub.exec a with
    | .ok hub1 => hub :: Hub.states hub1 as
    | .panic hub1 => [hub, hub1]

/-- An operation performed by a caller of the hub, in program order. -/
inductive Op where
  | StartWatching (r : Route)
  | StopWatching (r : Route)
  | send (e : Event)
deriving DecidableEq

/-- The method `Subscribe`: `hub.updateHub.StartWatching(connection.Route)` followed by
`hub.subscribe <- connection`. -/
def Hub.Subscribe (hub : Hub) (c : Conn) : List Op :=
  [.StartWatching (hub.mem c).Route, .send (.subscribe c)]

/-- The method `Unsubscribe`: `hub.updateHub.StopWatching(connection.Route)` followed by
`hub.unsubscribe <- connection`. -/
def Hub.Unsubscribe (hub : Hub) (c : Conn) : List Op :=
  [.StopWatching (hub.mem c).Route, .send (.unsubscribe c)]

/-! ## Example states -/

/-- A fresh connection object on route `r` with an open, empty outbox of
capacity `cap`. -/
def freshConn (r : String) (cap : Nat) : connection :=
  { Route := ⟨r⟩, send := ⟨cap, [], false⟩, ws := ⟨[], 0⟩ }

/-- A store where even handles watch `/docs/a` and odd handles `/docs/b`, all
with capacity-1 outboxes. -/
def mem0 : Conn → connection :=
  fun c => if c % 2 = 0 then freshConn "/docs/a" 1 else freshConn "/docs/b" 1

def msgA (p : String) : Message := ⟨⟨"/docs/a"⟩, p⟩
def msgB (p : String) : Message := ⟨⟨"/docs/b"⟩, p⟩

/-- No connection receives a registration request after a removal request
for it. -/
def noReuse : List Action → Bool
  | [] => true
  | .event (.unsubscribe c) :: as =>
    decide (Action.event (.subscribe c) ∉ as) && noReuse as
  | _ :: as => noReuse as

/-- Requests after which connection 2 is registered with a closed outbox and
connection 0, on the same route, with a fresh one. -/
def staleRun : List Action :=
  [.event (.subscribe 2), .event (.unsubscribe 2), .event (.subscribe 2),
   .event (.subscribe 0)]

/-- Handles 0 (route `/docs/a`) and 1 (route `/docs/b`) registered, outboxes empty. -/
def hub01 : Hub :=
  { connections := [0, 1], nodup := by decide, mem := mem0 }

/-- Handles 0 and 1 registered; the capacity-1 outbox of 0 already holds a message. -/
def hubFull : Hub :=
  { connections := [0, 1], nodup := by decide,
    mem := fun c => if c = 0 then
        { Route := ⟨"/docs/a"⟩, send := ⟨1, [msgA "v0"], false⟩, ws := ⟨[], 0⟩ }
      else mem0 c }

/-- Connection 0 with an outbox of capacity 2 and connection 1 with one of
capacity 1, both registered and empty. -/
def hubWide : Hub :=
  { connections := [0, 1], nodup := by decide,
    mem := fun c => if c = 0 then freshConn "/docs/a" 2 else freshConn "/docs/b" 1 }

/-- A run in which connection 0 receives three messages of its route while
connection 1 is evicted, a third connection comes and goes and the visiting
order of the map changes. -/
def fifoRun : List Action :=
  [.event (.broadcast (msgA "v1")), .event (.broadcast (msgB "w1")),
   .event (.broadcast (msgA "v2")), .event (.broadcast (msgB "w2")),
   .drain 0, .event (.subscribe 2), .reorder [0, 2], .event (.broadcast (msgA "v3")),
   .event (.unsubscribe 2)]

end update

namespace orchestrator

variable {R D I B P F : Type}

end orchestrator

namespace update

/-! ## Basic facts about the store and the registry -/

@[simp] theorem Hub.store_mem_same (hub : Hub) (c : Conn) (v : connection) :
    (hub.store c v).mem c = v := by
  simp [Hub.store]

theorem Hub.store_mem_other (hub : Hub) (c d : Conn) (v : connection) (h : d ≠ c) :
    (hub.store c v).mem d = hub.mem d := by
  simp [Hub.store, h]

@[simp] theorem Hub.store_connections (hub : Hub) (c : Conn) (v : connection) :
    (hub.store c v).connections = hub.connections := rfl

@[simp] theorem Hub.delete_mem (hub : Hub) (c : Conn) : (hub.delete c).mem = hub.mem := rfl

@[simp] theorem Hub.delete_connections (hub : Hub) (c : Conn) :
    (hub.delete c).connections = hub.connections.erase c := rfl

@[simp] theorem Hub.register_mem (hub : Hub) (c : Conn) : (hub.register c).mem = hub.mem := rfl

@[simp] theorem Hub.register_connections (hub : Hub) (c : Conn) :
    (hub.register c).connections = hub.connections.insert c := rfl

theorem Hub.not_mem_delete (hub : Hub) (c : Conn) : c ∉ (hub.delete c).connections := by
  simpa using hub.nodup.not_mem_erase

theorem Hub.mem_delete_other (hub : Hub) (c d : Conn) (h : d ≠ c) :
    d ∈ (hub.delete c).connections ↔ d ∈ hub.connections := by
  simp [List.mem_erase_of_ne h]

theorem Hub.ext_of (a b : Hub) (hc : a.connections = b.connections) (hm : a.mem = b.mem) :
    a = b := by
  cases a; cases b; cases hc; cases hm; rfl

theorem Hub.delete_of_not_mem (hub : Hub) (c : Conn) (h : c ∉ hub.connections) :
    hub.delete c = hub :=
  Hub.ext_of _ _ (by simp [List.erase_of_not_mem h]) rfl

theorem Hub.mem_connectionsByRoute (hub : Hub) (r : Route) (d : Conn) :
    d ∈ hub.connectionsByRoute r ↔
      d ∈ hub.connections ∧ r.Value = (hub.mem d).Route.Value := by
  simp [Hub.connectionsByRoute]

theorem Hub.nodup_connectionsByRoute (hub : Hub) (r : Route) :
    (hub.connectionsByRoute r).Nodup :=
  hub.nodup.filter _

/-! ## The inner select -/

theorem Hub.trySend_mem_other (hub : Hub) (m : Message) (c d : Conn) (h : d ≠ c) :
    (hub.trySend m c).hub.mem d = hub.mem d := by
  unfold Hub.trySend
  simp only []
  split
  · rfl
  · split <;> simp [Outcome.hub, Hub.store_mem_other _ _ _ _ h]

theorem Hub.trySend_connections_other (hub : Hub) (m : Message) (c d : Conn) (h : d ≠ c) :
    d ∈ (hub.trySend m c).hub.connections ↔ d ∈ hub.connections := by
  unfold Hub.trySend
  simp only []
  split
  · rfl
  · split <;> simp [Outcome.hub, List.mem_erase_of_ne h]

theorem Hub.trySend_ok (hub hub1 : Hub) (m : Message) (c : Conn)
    (h : hub.trySend m c = .ok hub1) :
    (hub.mem c).send.closed = false ∧
    hub1.mem c = (if (hub.mem c).hasRoom then (hub.mem c).push m else (hub.mem c).closeWs) ∧
    (c ∈ hub1.connections ↔ c ∈ hub.connections ∧ (hub.mem c).hasRoom = true) := by
  unfold Hub.trySend at h
  simp only [] at h
  split at h
  · cases h
  · rename_i hcl
    split at h
    · rename_i hroom
      cases h
      simp [hroom, hcl]
    · rename_i hroom
      cases h
      simp [hroom, hcl, hub.nodup.not_mem_erase]

theorem Hub.trySend_of_open (hub : Hub) (m : Message) (c : Conn)
    (h : (hub.mem c).send.closed = false) : ∃ hub1, hub.trySend m c = .ok hub1 := by
  by_cases hr : (hub.mem c).hasRoom = true
  · exact ⟨hub.store c ((hub.mem c).push m), by simp [Hub.trySend, h, hr]⟩
  · exact ⟨(hub.delete c).store c (hub.mem c).closeWs, by simp [Hub.trySend, h, hr]⟩

theorem Hub.trySend_static (hub : Hub) (m : Message) (c d : Conn) :
    ((hub.trySend m c).hub.mem d).Route = (hub.mem d).Route ∧
    ((hub.trySend m c).hub.mem d).send.closed = (hub.mem d).send.closed := by
  by_cases hd : d = c
  · subst hd
    unfold Hub.trySend
    simp only []
    split
    · exact ⟨rfl, rfl⟩
    · split <;> simp [Outcome.hub, connection.push, connection.closeWs]
  · rw [Hub.trySend_mem_other hub m c d hd]
    exact ⟨rfl, rfl⟩

theorem Hub.trySend_subset (hub : Hub) (m : Message) (c d : Conn)
    (h : d ∈ (hub.trySend m c).hub.connections) : d ∈ hub.connections := by
  unfold Hub.trySend at h
  simp only [] at h
  split at h
  · exact h
  · split at h
    · exact h
    · exact List.mem_of_mem_erase h

/-! ## The fan-out loop -/

theorem Hub.fanOut_frame (m : Message) (d : Conn) :
    ∀ (cs : List Conn) (hub : Hub), d ∉ cs →
      (hub.fanOut m cs).hub.mem d = hub.mem d ∧
      (d ∈ (hub.fanOut m cs).hub.connections ↔ d ∈ hub.connections) := by
  intro cs
  induction cs with
  | nil => intro hub _; exact ⟨rfl, Iff.rfl⟩
  | cons c cs ih =>
    intro hub hd
    have hdc : d ≠ c := fun h => hd (h ▸ List.mem_cons_self _ _)
    have hdcs : d ∉ cs := fun h => hd (List.mem_cons_of_mem _ h)
    have h1 := Hub.trySend_mem_other hub m c d hdc
    have h2 := Hub.trySend_connections_other hub m c d hdc
    unfold Hub.fanOut
    cases hs : hub.trySend m c with
    | ok hub1 =>
      rw [hs] at h1 h2
      simp only [Outcome.hub] at h1 h2
      obtain ⟨a, b⟩ := ih hub1 hdcs
      exact ⟨a.trans h1, b.trans h2⟩
    | panic hub1 =>
      rw [hs] at h1 h2
      exact ⟨h1, h2⟩

theorem Hub.fanOut_static (m : Message) (d : Conn) :
    ∀ (cs : List Conn) (hub : Hub),
      ((hub.fanOut m cs).hub.mem d).Route = (hub.mem d).Route ∧
      ((hub.fanOut m cs).hub.mem d).send.closed = (hub.mem d).send.closed := by
  intro cs
  induction cs with
  | nil => intro hub; exact ⟨rfl, rfl⟩
  | cons c cs ih =>
    intro hub
    have h1 := Hub.trySend_static hub m c d
    unfold Hub.fanOut
    cases hs : hub.trySend m c with
    | ok hub1 =>
      rw [hs] at h1
      simp only [Outcome.hub] at h1
      obtain ⟨a, b⟩ := ih hub1
      exact ⟨a.trans h1.1, b.trans h1.2⟩
    | panic hub1 =>
      rw [hs] at h1
      exact h1

theorem Hub.fanOut_subset (m : Message) (d : Conn) :
    ∀ (cs : List Conn) (hub : Hub),
      d ∈ (hub.fanOut m cs).hub.connections → d ∈ hub.connections := by
  intro cs
  induction cs with
  | nil => intro hub h; exact h
  | cons c cs ih =>
    intro hub h
    have h1 := Hub.trySend_subset hub m c d
    unfold Hub.fanOut at h
    cases hs : hub.trySend m c with
    | ok hub1 =>
      rw [hs] at h h1
      exact h1 (ih hub1 h)
    | panic hub1 =>
      rw [hs] at h h1
      exact h1 h

/-- A fan-out loop over connections whose outboxes are all open completes. -/
theorem Hub.fanOut_isOk (m : Message) :
    ∀ (cs : List Conn) (hub : Hub), (∀ d ∈ cs, (hub.mem d).send.closed = false) →
      ∃ hub1, hub.fanOut m cs = .ok hub1 := by
  intro cs
  induction cs with
  | nil => intro hub _; exact ⟨hub, rfl⟩
  | cons c cs ih =>
    intro hub hopen
    obtain ⟨hub1, hs⟩ := Hub.trySend_of_open hub m c (hopen c (List.mem_cons_self _ _))
    have hst := fun d => (Hub.trySend_static hub m c d).2
    rw [hs] at hst
    simp only [Outcome.hub] at hst
    obtain ⟨hub2, h2⟩ := ih hub1 (fun d hd => by
      rw [hst d]; exact hopen d (List.mem_cons_of_mem _ hd))
    exact ⟨hub2, by unfold Hub.fanOut; rw [hs]; exact h2⟩

/-- What a completed fan-out loop over distinct connections has done to each of
them: pushed when there was room, evicted otherwise. -/
theorem Hub.fanOut_eq_ok (m : Message) :
    ∀ (cs : List Conn) (hub hub2 : Hub), cs.Nodup → hub.fanOut m cs = .ok hub2 →
      ∀ d ∈ cs,
        (hub.mem d).send.closed = false ∧
        hub2.mem d =
          (if (hub.mem d).hasRoom then (hub.mem d).push m else (hub.mem d).closeWs) ∧
        (d ∈ hub2.connections ↔ d ∈ hub.connections ∧ (hub.mem d).hasRoom = true) := by
  intro cs
  induction cs with
  | nil => intro hub hub2 _ _ d hd; cases hd
  | cons c cs ih =>
    intro hub hub2 hnd hrun d hd
    obtain ⟨hc, hnd2⟩ := List.nodup_cons.mp hnd
    unfold Hub.fanOut at hrun
    cases hs : hub.trySend m c with
    | panic hub1 => rw [hs] at hrun; cases hrun
    | ok hub1 =>
      rw [hs] at hrun
      simp only [] at hrun
      by_cases hdc : d = c
      · subst hdc
        obtain ⟨a, b, e⟩ := Hub.trySend_ok hub hub1 m d hs
        have hf := Hub.fanOut_frame m d cs hub1 hc
        rw [hrun] at hf
        simp only [Outcome.hub] at hf
        exact ⟨a, hf.1.trans b, hf.2.trans e⟩
      · have hdcs : d ∈ cs := by
          rcases List.mem_cons.mp hd with h | h
          · exact absurd h hdc
          · exact h
        have h1 := Hub.trySend_mem_other hub m c d hdc
        have h2 := Hub.trySend_connections_other hub m c d hdc
        rw [hs] at h1 h2
        simp only [Outcome.hub] at h1 h2
        have := ih hub1 hub2 hnd2 hrun d hdcs
        rw [h1, h2] at this
        exact this

/-! ## The broadcast case of the decision loop -/

theorem Hub.broadcast_frame (hub : Hub) (m : Message) (d : Conn)
    (h : d ∉ hub.connectionsByRoute m.Route) :
    (hub.handle (.broadcast m)).hub.mem d = hub.mem d ∧
    (d ∈ (hub.handle (.broadcast m)).hub.connections ↔ d ∈ hub.connections) :=
  Hub.fanOut_frame m d _ hub h

theorem Hub.broadcast_static (hub : Hub) (m : Message) (d : Conn) :
    ((hub.handle (.broadcast m)).hub.mem d).Route = (hub.mem d).Route ∧
    ((hub.handle (.broadcast m)).hub.mem d).send.closed = (hub.mem d).send.closed :=
  Hub.fanOut_static m d _ hub

theorem Hub.broadcast_subset (hub : Hub) (m : Message) (d : Conn)
    (h : d ∈ (hub.handle (.broadcast m)).hub.connections) : d ∈ hub.connections :=
  Hub.fanOut_subset m d _ hub h

theorem Hub.broadcast_isOk (hub : Hub) (m : Message)
    (hopen : ∀ d ∈ hub.connections, (hub.mem d).Route.Value = m.Route.Value →
      (hub.mem d).send.closed = false) :
    ∃ hub1, hub.handle (.broadcast m) = .ok hub1 :=
  Hub.fanOut_isOk m _ hub (fun d hd => by
    obtain ⟨h1, h2⟩ := (Hub.mem_connectionsByRoute hub m.Route d).mp hd
    exact hopen d h1 h2.symm)

theorem Hub.broadcast_eq_ok (hub hub1 : Hub) (m : Message) (d : Conn)
    (h : hub.handle (.broadcast m) = .ok hub1) (hd : d ∈ hub.connections)
    (hr : (hub.mem d).Route.Value = m.Route.Value) :
    (hub.mem d).send.closed = false ∧
    hub1.mem d =
      (if (hub.mem d).hasRoom then (hub.mem d).push m else (hub.mem d).closeWs) ∧
    (d ∈ hub1.connections ↔ (hub.mem d).hasRoom = true) := by
  have hmem : d ∈ hub.connectionsByRoute m.Route :=
    (Hub.mem_connectionsByRoute hub m.Route d).mpr ⟨hd, hr.symm⟩
  obtain ⟨a, b, e⟩ := Hub.fanOut_eq_ok m _ hub hub1 (Hub.nodup_connectionsByRoute hub m.Route) h d hmem
  exact ⟨a, b, e.trans ⟨fun x => x.2, fun x => ⟨hd, x⟩⟩⟩

/-! ## Route isolation and no-op broadcast -/

/-- C1 (route isolation): for every hub state, message `m` and registered
connection `c` whose route value differs from that of `m`, the fan-out step for
`m` (whether it completes or panics on some other connection) leaves the object
of `c`, hence its outbox, unchanged and leaves `c` registered;
`connectionsByRoute` selects exactly the registered connections with the route
value of `m`, and a connection that is not selected is neither written to nor
added to or removed from the registry. -/
theorem route_isolation (hub : Hub) (m : Message) (c : Conn)
    (hc : c ∈ hub.connections) (hr : (hub.mem c).Route.Value ≠ m.Route.Value) :
    ((hub.handle (.broadcast m)).hub.mem c).send = (hub.mem c).send ∧
    c ∈ (hub.handle (.broadcast m)).hub.connections ∧
    (∀ d, d ∈ hub.connectionsByRoute m.Route ↔
      d ∈ hub.connections ∧ (hub.mem d).Route.Value = m.Route.Value) ∧
    (∀ d, d ∉ hub.connectionsByRoute m.Route →
      (hub.handle (.broadcast m)).hub.mem d = hub.mem d ∧
      (d ∈ (hub.handle (.broadcast m)).hub.connections ↔ d ∈ hub.connections)) := by
  have hsel : ∀ d, d ∈ hub.connectionsByRoute m.Route ↔
      d ∈ hub.connections ∧ (hub.mem d).Route.Value = m.Route.Value := fun d =>
    (Hub.mem_connectionsByRoute hub m.Route d).trans
      ⟨fun x => ⟨x.1, x.2.symm⟩, fun x => ⟨x.1, x.2.symm⟩⟩
  have hnot : c ∉ hub.connectionsByRoute m.Route := fun h => hr ((hsel c).mp h).2
  obtain ⟨a, b⟩ := Hub.broadcast_frame hub m c hnot
  exact ⟨by rw [a], b.mpr hc, hsel, fun d hd => Hub.broadcast_frame hub m d hd⟩

theorem route_isolation_witness :
    (1 ∈ hub01.connections ∧ (hub01.mem 1).Route.Value ≠ (msgA "v1").Route.Value) ∧
    ((hub01.handle (.broadcast (msgA "v1"))).hub.mem 1).send = (hub01.mem 1).send ∧
    1 ∈ (hub01.handle (.broadcast (msgA "v1"))).hub.connections :=
  ⟨⟨by decide, by decide⟩,
    (route_isolation hub01 (msgA "v1") 1 (by decide) (by decide)).1,
    (route_isolation hub01 (msgA "v1") 1 (by decide) (by decide)).2.1⟩

/-- C8 (no-op broadcast): when no registered connection has the route value of
`m`, the fan-out step for `m` completes without panic and returns the very same
state: same registry, same connection objects (outboxes and transports). -/
theorem noop_broadcast (hub : Hub) (m : Message)
    (h : ∀ c ∈ hub.connections, (hub.mem c).Route.Value ≠ m.Route.Value) :
    hub.handle (.broadcast m) = .ok hub := by
  have hnil : hub.connectionsByRoute m.Route = [] := by
    apply List.eq_nil_iff_forall_not_mem.mpr
    intro d hd
    obtain ⟨h1, h2⟩ := (Hub.mem_connectionsByRoute hub m.Route d).mp hd
    exact h d h1 h2.symm
  simp [Hub.handle, hnil, Hub.fanOut]

theorem noop_broadcast_witness :
    (∀ c ∈ hub01.connections, (hub01.mem c).Route.Value ≠ (⟨⟨"/docs/c"⟩, "v"⟩ : Message).Route.Value) ∧
    hub01.handle (.broadcast ⟨⟨"/docs/c"⟩, "v"⟩) = .ok hub01 :=
  ⟨by decide, noop_broadcast hub01 ⟨⟨"/docs/c"⟩, "v"⟩ (by decide)⟩

/-! ## Backpressure eviction -/

/-- C2, refuted as stated: from the empty hub, the requests subscribe 2,
unsubscribe 2, subscribe 2, subscribe 0 lead to a state where connection 0 is
registered with an empty, open outbox of capacity 1 and connection 2, on the
same route, is registered with a closed outbox. The first fan-out request for
that route panics on the send to 2, in whichever order the two are visited, so
the loop never processes a second one: 0 stays registered and no close of its
transport is dispatched. -/
theorem backpressure_eviction_panics :
    (((NewHub mem0).Run staleRun).isOk = true ∧
      0 ∈ ((NewHub mem0).Run staleRun).hub.connections ∧
      (((NewHub mem0).Run staleRun).hub.mem 0).send = ⟨1, [], false⟩) ∧
    ((((NewHub mem0).Run staleRun).hub.handle (.broadcast (msgA "v1"))).isOk = false ∧
      ((((NewHub mem0).Run staleRun).hub.reorder [2, 0]).handle
        (.broadcast (msgA "v1"))).isOk = false) ∧
    (((NewHub mem0).Run (staleRun ++
        [.event (.broadcast (msgA "v1")), .event (.broadcast (msgA "v2"))])).isOk = false ∧
      0 ∈ ((NewHub mem0).Run (staleRun ++
        [.event (.broadcast (msgA "v1")), .event (.broadcast (msgA "v2"))])).hub.connections ∧
      (((NewHub mem0).Run (staleRun ++
        [.event (.broadcast (msgA "v1")), .event (.broadcast (msgA "v2"))])).hub.mem 0
          ).ws.closeCalls = 0) := by
  decide

/-- C2 (amended): let `c` be registered with an empty, open
outbox of capacity 1 that nobody drains, the outboxes of the registered
subscribers of its route being open. Three fan-out requests for the route of
`c` all complete; the first appends its message to the outbox of `c` and keeps
`c` registered; the second removes `c` from the registry and dispatches one
close of its transport, pushing nothing; the third does not select `c`, leaves
its object untouched, and selects no connection at all when `c` was the only
subscriber of the route. -/
theorem backpressure_eviction (hub : Hub) (c : Conn) (m1 m2 m3 : Message)
    (hc : c ∈ hub.connections)
    (hbox : (hub.mem c).send = ⟨1, [], false⟩)
    (hopen : ∀ d ∈ hub.connections, (hub.mem d).Route.Value = (hub.mem c).Route.Value →
      (hub.mem d).send.closed = false)
    (h1 : m1.Route.Value = (hub.mem c).Route.Value)
    (h2 : m2.Route.Value = (hub.mem c).Route.Value)
    (h3 : m3.Route.Value = (hub.mem c).Route.Value) :
    ∃ s1 s2 s3,
      hub.handle (.broadcast m1) = .ok s1 ∧
      s1.handle (.broadcast m2) = .ok s2 ∧
      s2.handle (.broadcast m3) = .ok s3 ∧
      c ∈ s1.connections ∧ (s1.mem c).send = ⟨1, [m1], false⟩ ∧
      (s1.mem c).ws = (hub.mem c).ws ∧
      c ∉ s2.connections ∧ (s2.mem c).send = ⟨1, [m1], false⟩ ∧
      (s2.mem c).ws.closeCalls = (hub.mem c).ws.closeCalls + 1 ∧
      c ∉ s2.connectionsByRoute m3.Route ∧ s3.mem c = s2.mem c ∧
      ((∀ d ∈ hub.connections, (hub.mem d).Route.Value = (hub.mem c).Route.Value → d = c) →
        s2.connectionsByRoute m3.Route = []) := by
  -- first request
  obtain ⟨s1, e1⟩ := Hub.broadcast_isOk hub m1 (fun d hd hr => hopen d hd (hr.trans h1))
  have st1 := fun d => Hub.broadcast_static hub m1 d
  have sub1 := fun d => Hub.broadcast_subset hub m1 d
  rw [e1] at st1 sub1
  simp only [Outcome.hub] at st1 sub1
  obtain ⟨_, b1, r1⟩ := Hub.broadcast_eq_ok hub s1 m1 c e1 hc h1.symm
  have room0 : (hub.mem c).hasRoom = true := by simp [connection.hasRoom, hbox]
  rw [room0] at b1
  simp only [if_true] at b1
  have hc1 : c ∈ s1.connections := r1.mpr room0
  have send1 : (s1.mem c).send = ⟨1, [m1], false⟩ := by
    rw [b1]; simp [connection.push, hbox]
  have ws1 : (s1.mem c).ws = (hub.mem c).ws := by rw [b1]; rfl
  -- second request
  have open1 : ∀ d ∈ s1.connections, (s1.mem d).Route.Value = (s1.mem c).Route.Value →
      (s1.mem d).send.closed = false := by
    intro d hd hr
    rw [(st1 d).2]
    rw [(st1 d).1, (st1 c).1] at hr
    exact hopen d (sub1 d hd) hr
  have hr2 : m2.Route.Value = (s1.mem c).Route.Value := by rw [(st1 c).1]; exact h2
  obtain ⟨s2, e2⟩ := Hub.broadcast_isOk s1 m2 (fun d hd hr => open1 d hd (hr.trans hr2))
  have st2 := fun d => Hub.broadcast_static s1 m2 d
  have sub2 := fun d => Hub.broadcast_subset s1 m2 d
  rw [e2] at st2 sub2
  simp only [Outcome.hub] at st2 sub2
  obtain ⟨_, b2, r2⟩ := Hub.broadcast_eq_ok s1 s2 m2 c e2 hc1 hr2.symm
  have room1 : (s1.mem c).hasRoom = false := by simp [connection.hasRoom, send1]
  rw [room1] at b2 r2
  simp only [Bool.false_eq_true, if_false] at b2
  have hc2 : c ∉ s2.connections := fun h => by simpa using r2.mp h
  have send2 : (s2.mem c).send = ⟨1, [m1], false⟩ := by
    rw [b2]; simpa [connection.closeWs] using send1
  have ws2 : (s2.mem c).ws.closeCalls = (hub.mem c).ws.closeCalls + 1 := by
    rw [b2]; simp [connection.closeWs, ws1]
  -- third request
  have open2 : ∀ d ∈ s2.connections, (s2.mem d).Route.Value = m3.Route.Value →
      (s2.mem d).send.closed = false := by
    intro d hd hr
    rw [(st2 d).2]
    rw [(st2 d).1] at hr
    exact open1 d (sub2 d hd) (by rw [hr, (st1 c).1]; exact h3)
  obtain ⟨s3, e3⟩ := Hub.broadcast_isOk s2 m3 open2
  have hsel : c ∉ s2.connectionsByRoute m3.Route := fun h =>
    hc2 ((Hub.mem_connectionsByRoute s2 m3.Route c).mp h).1
  have fr3 := (Hub.broadcast_frame s2 m3 c hsel).1
  rw [e3] at fr3
  simp only [Outcome.hub] at fr3
  refine ⟨s1, s2, s3, e1, e2, e3, hc1, send1, ws1, hc2, send2, ws2, hsel, fr3, ?_⟩
  intro honly
  apply List.eq_nil_iff_forall_not_mem.mpr
  intro d hd
  obtain ⟨hd2, hrd⟩ := (Hub.mem_connectionsByRoute s2 m3.Route d).mp hd
  have hd0 : d ∈ hub.connections := sub1 d (sub2 d hd2)
  have hroute : (hub.mem d).Route.Value = (hub.mem c).Route.Value := by
    rw [← (st1 d).1, ← (st2 d).1, ← hrd]; exact h3
  exact hc2 (honly d hd0 hroute ▸ hd2)

theorem backpressure_eviction_witness :
    (0 ∈ hub01.connections ∧ (hub01.mem 0).send = ⟨1, [], false⟩ ∧
      (∀ d ∈ hub01.connections, (hub01.mem d).Route.Value = (hub01.mem 0).Route.Value →
        (hub01.mem d).send.closed = false) ∧
      (msgA "v1").Route.Value = (hub01.mem 0).Route.Value) ∧
    ∃ s1 s2 s3,
      hub01.handle (.broadcast (msgA "v1")) = .ok s1 ∧
      s1.handle (.broadcast (msgA "v2")) = .ok s2 ∧
      s2.handle (.broadcast (msgA "v3")) = .ok s3 ∧
      0 ∈ s1.connections ∧ (s1.mem 0).send = ⟨1, [msgA "v1"], false⟩ ∧
      (s1.mem 0).ws = (hub01.mem 0).ws ∧
      0 ∉ s2.connections ∧ (s2.mem 0).send = ⟨1, [msgA "v1"], false⟩ ∧
      (s2.mem 0).ws.closeCalls = (hub01.mem 0).ws.closeCalls + 1 ∧
      0 ∉ s2.connectionsByRoute (msgA "v3").Route ∧ s3.mem 0 = s2.mem 0 ∧
      ((∀ d ∈ hub01.connections,
          (hub01.mem d).Route.Value = (hub01.mem 0).Route.Value → d = 0) →
        s2.connectionsByRoute (msgA "v3").Route = []) :=
  ⟨⟨by decide, by decide, by decide, by decide⟩,
    backpressure_eviction hub01 0 (msgA "v1") (msgA "v2") (msgA "v3")
      (by decide) (by decide) (by decide) (by decide) (by decide) (by decide)⟩

/-! ## Removal requests -/

theorem Hub.closeSend_of_open (hub : Hub) (c : Conn) (h : (hub.mem c).send.closed = false) :
    hub.closeSend c =
      .ok (hub.store c { hub.mem c with send := { (hub.mem c).send with closed := true } }) := by
  simp [Hub.closeSend, h]

theorem Hub.closeSend_of_closed (hub : Hub) (c : Conn) (h : (hub.mem c).send.closed = true) :
    hub.closeSend c = .panic hub := by
  simp [Hub.closeSend, h]

theorem Hub.Run_cons_ok (hub hub1 : Hub) (a : Action) (as : List Action)
    (h : hub.exec a = .ok hub1) : hub.Run (a :: as) = hub1.Run as := by
  simp [Hub.Run, h]

theorem Hub.Run_cons_panic (hub hub1 : Hub) (a : Action) (as : List Action)
    (h : hub.exec a = .panic hub1) : hub.Run (a :: as) = .panic hub1 := by
  simp [Hub.Run, h]

/-- C3 (double unsubscribe), evaluated on the code: with connection 0
registered and its outbox open, the first removal request completes and closes
the outbox, and the second one panics in `close(c.send)`; in every hub state
and for every connection, two removal requests in a row end in a panic. -/
theorem double_unsubscribe_panics :
    ((hub01.handle (.unsubscribe 0)).isOk = true ∧
      ((hub01.handle (.unsubscribe 0)).hub.mem 0).send.closed = true ∧
      (hub01.Run [.event (.unsubscribe 0), .event (.unsubscribe 0)]).isOk = false) ∧
    ∀ (hub : Hub) (c : Conn),
      (hub.Run [.event (.unsubscribe c), .event (.unsubscribe c)]).isOk = false := by
  refine ⟨by decide, fun hub c => ?_⟩
  cases hcl : (hub.mem c).send.closed with
  | true =>
    have h1 : hub.exec (.event (.unsubscribe c)) = .panic (hub.delete c) :=
      Hub.closeSend_of_closed (hub.delete c) c hcl
    rw [Hub.Run_cons_panic hub _ _ _ h1]
    rfl
  | false =>
    have h1 := Hub.closeSend_of_open (hub.delete c) c hcl
    have h2 : ∀ x : Hub, (x.mem c).send.closed = true →
        x.exec (.event (.unsubscribe c)) = .panic (x.delete c) := fun x hx =>
      Hub.closeSend_of_closed (x.delete c) c hx
    have h3 := h2 _ (show (((hub.delete c).store c
      { (hub.delete c).mem c with
        send := { ((hub.delete c).mem c).send with closed := true } }).mem c).send.closed = true
      by simp)
    have h1b : hub.exec (.event (.unsubscribe c)) = _ := h1
    rw [Hub.Run_cons_ok hub _ _ _ h1b, Hub.Run_cons_panic _ _ _ _ h3]
    rfl

/-- C5, refuted as stated: connection 0, evicted by backpressure and so absent
from the registry with its outbox still open, has its outbox closed by a
removal request; the state does not stay unchanged. -/
theorem absent_removal_changes_state :
    0 ∉ (hubFull.handle (.broadcast (msgA "v1"))).hub.connections ∧
    ((hubFull.handle (.broadcast (msgA "v1"))).hub.mem 0).send.closed = false ∧
    (((hubFull.handle (.broadcast (msgA "v1"))).hub.handle (.unsubscribe 0)).hub.mem 0).send.closed
      = true := by
  decide

/-- C5 (amended): a removal request for a connection `c` that is not in the
registry and whose outbox is open completes, leaves the registry, every other
connection object, the transport of `c` and the contents of the outbox of `c`
unchanged, and closes the outbox of `c`. -/
theorem absent_removal_closes_outbox (hub : Hub) (c : Conn)
    (hc : c ∉ hub.connections) (hopen : (hub.mem c).send.closed = false) :
    ∃ hub1, hub.handle (.unsubscribe c) = .ok hub1 ∧
      hub1.connections = hub.connections ∧
      (∀ d, d ≠ c → hub1.mem d = hub.mem d) ∧
      (hub1.mem c).Route = (hub.mem c).Route ∧
      (hub1.mem c).ws = (hub.mem c).ws ∧
      (hub1.mem c).send.buf = (hub.mem c).send.buf ∧
      (hub1.mem c).send.cap = (hub.mem c).send.cap ∧
      (hub1.mem c).send.closed = true := by
  refine ⟨hub.store c { hub.mem c with send := { (hub.mem c).send with closed := true } },
    ?_, ?_, ?_, ?_, ?_, ?_, ?_, ?_⟩
  · show (hub.delete c).closeSend c = _
    rw [Hub.delete_of_not_mem hub c hc]
    exact Hub.closeSend_of_open hub c hopen
  · rfl
  · intro d hd
    exact Hub.store_mem_other _ _ _ _ hd
  all_goals simp

theorem absent_removal_closes_outbox_witness :
    (2 ∉ hub01.connections ∧ (hub01.mem 2).send.closed = false) ∧
    ∃ hub1, hub01.handle (.unsubscribe 2) = .ok hub1 ∧
      hub1.connections = hub01.connections ∧
      (∀ d, d ≠ 2 → hub1.mem d = hub01.mem d) ∧
      (hub1.mem 2).Route = (hub01.mem 2).Route ∧
      (hub1.mem 2).ws = (hub01.mem 2).ws ∧
      (hub1.mem 2).send.buf = (hub01.mem 2).send.buf ∧
      (hub1.mem 2).send.cap = (hub01.mem 2).send.cap ∧
      (hub1.mem 2).send.closed = true :=
  ⟨⟨by decide, by decide⟩, absent_removal_closes_outbox hub01 2 (by decide) (by decide)⟩

/-- C7, refuted as stated: the two removal paths leave a connection in
different conditions. Evicting connection 0 on a full outbox leaves its outbox
open and dispatches a close of its transport; a removal request for the same
connection closes its outbox and dispatches no close of its transport. -/
theorem removal_paths_differ :
    (0 ∉ (hubFull.handle (.broadcast (msgA "v1"))).hub.connections ∧
      ((hubFull.handle (.broadcast (msgA "v1"))).hub.mem 0).send.closed = false ∧
      ((hubFull.handle (.broadcast (msgA "v1"))).hub.mem 0).ws.closeCalls = 1) ∧
    (0 ∉ (hubFull.handle (.unsubscribe 0)).hub.connections ∧
      ((hubFull.handle (.unsubscribe 0)).hub.mem 0).send.closed = true ∧
      ((hubFull.handle (.unsubscribe 0)).hub.mem 0).ws.closeCalls = 0) := by
  decide

theorem Hub.trySend_panic (hub hub1 : Hub) (m : Message) (c : Conn)
    (h : hub.trySend m c = .panic hub1) : hub1 = hub := by
  unfold Hub.trySend at h
  simp only [] at h
  split at h
  · cases h; rfl
  · split at h <;> cases h

/-- A connection that a fan-out loop over distinct connections has removed
from the registry, whether the loop completed or panicked later on, was
visited with an open and full outbox and went through the `default:` branch. -/
theorem Hub.fanOut_removed (m : Message) (d : Conn) :
    ∀ (cs : List Conn) (hub : Hub), cs.Nodup → d ∈ hub.connections →
      d ∉ (hub.fanOut m cs).hub.connections →
      d ∈ cs ∧ (hub.mem d).send.closed = false ∧ (hub.mem d).hasRoom = false ∧
      (hub.fanOut m cs).hub.mem d = (hub.mem d).closeWs := by
  intro cs
  induction cs with
  | nil => intro hub _ hd hnd; exact absurd hd hnd
  | cons c cs ih =>
    intro hub hnd hd hout
    obtain ⟨hc, hnd2⟩ := List.nodup_cons.mp hnd
    unfold Hub.fanOut at hout ⊢
    cases hs : hub.trySend m c with
    | panic hub1 =>
      rw [hs] at hout
      have := Hub.trySend_panic hub hub1 m c hs
      subst this
      exact absurd hd hout
    | ok hub1 =>
      rw [hs] at hout
      simp only [] at hout ⊢
      by_cases hdc : d = c
      · subst hdc
        obtain ⟨a, b, e⟩ := Hub.trySend_ok hub hub1 m d hs
        obtain ⟨f1, f2⟩ := Hub.fanOut_frame m d cs hub1 hc
        have hnot1 : d ∉ hub1.connections := fun h => hout (f2.mpr h)
        have hroom : (hub.mem d).hasRoom = false := by
          cases hr : (hub.mem d).hasRoom with
          | false => rfl
          | true => exact absurd (e.mpr ⟨hd, hr⟩) hnot1
        rw [hroom] at b
        simp only [Bool.false_eq_true, if_false] at b
        exact ⟨List.mem_cons_self _ _, a, hroom, f1.trans b⟩
      · have h1 := Hub.trySend_mem_other hub m c d hdc
        have h2 := Hub.trySend_connections_other hub m c d hdc
        rw [hs] at h1 h2
        simp only [Outcome.hub] at h1 h2
        obtain ⟨a, b, e, f⟩ := ih hub1 hnd2 (h2.mpr hd) hout
        rw [h1] at b e f
        exact ⟨List.mem_cons_of_mem _ a, b, e, f⟩

/-- C7 (amended): let `c` be a registered connection with a buffered outbox
(capacity at least 1). A removal request removes `c` from the registry and
leaves its outbox closed, with the contents and capacity of the outbox and the
transport as they were. Whenever a fan-out step removes `c` from the registry,
be it that the step completes or panics on a later connection, the message was
for the route of `c`, the outbox of `c` was open and full, the outbox is left
exactly as it was (open, same contents) and one close of the transport of `c`
has been dispatched; and every fan-out step for the route of `c` that completes
while the outbox of `c` is full removes `c`. -/
theorem removal_paths (hub : Hub) (c : Conn)
    (hc : c ∈ hub.connections) (hcap : 1 ≤ (hub.mem c).send.cap) :
    (c ∉ (hub.handle (.unsubscribe c)).hub.connections ∧
      ((hub.handle (.unsubscribe c)).hub.mem c).send =
        { (hub.mem c).send with closed := true } ∧
      ((hub.handle (.unsubscribe c)).hub.mem c).ws = (hub.mem c).ws) ∧
    (∀ m, c ∉ (hub.handle (.broadcast m)).hub.connections →
      m.Route.Value = (hub.mem c).Route.Value ∧
      (hub.mem c).send.closed = false ∧
      (hub.mem c).send.cap ≤ (hub.mem c).send.buf.length ∧
      ((hub.handle (.broadcast m)).hub.mem c).send = (hub.mem c).send ∧
      ((hub.handle (.broadcast m)).hub.mem c).ws =
        { (hub.mem c).ws with closeCalls := (hub.mem c).ws.closeCalls + 1 }) ∧
    (∀ m hub2, hub.handle (.broadcast m) = .ok hub2 →
      m.Route.Value = (hub.mem c).Route.Value →
      (hub.mem c).send.cap ≤ (hub.mem c).send.buf.length →
      c ∉ hub2.connections) := by
  have _ := hcap
  refine ⟨?_, ?_, ?_⟩
  · show c ∉ ((hub.delete c).closeSend c).hub.connections ∧
      (((hub.delete c).closeSend c).hub.mem c).send = _ ∧
      (((hub.delete c).closeSend c).hub.mem c).ws = _
    cases hcl : (hub.mem c).send.closed with
    | true =>
      rw [Hub.closeSend_of_closed (hub.delete c) c hcl]
      refine ⟨Hub.not_mem_delete hub c, ?_, rfl⟩
      show (hub.mem c).send = _
      rw [← hcl]
    | false =>
      rw [Hub.closeSend_of_open (hub.delete c) c hcl]
      refine ⟨Hub.not_mem_delete hub c, ?_, ?_⟩
      · simp [Outcome.hub]
      · simp [Outcome.hub]
  · intro m hout
    obtain ⟨a, b, e, f⟩ := Hub.fanOut_removed m c _ hub
      (Hub.nodup_connectionsByRoute hub m.Route) hc hout
    have hf : (hub.handle (.broadcast m)).hub.mem c = (hub.mem c).closeWs := f
    refine ⟨((Hub.mem_connectionsByRoute hub m.Route c).mp a).2, b, ?_, ?_, ?_⟩
    · simpa [connection.hasRoom] using e
    · rw [hf]; rfl
    · rw [hf]; rfl
  · intro m hub2 e hr hfull
    obtain ⟨_, _, r⟩ := Hub.broadcast_eq_ok hub hub2 m c e hc hr.symm
    have room : (hub.mem c).hasRoom = false := by
      simp [connection.hasRoom, hfull]
    rw [room] at r
    exact fun h => by simpa using r.mp h

theorem removal_paths_witness :
    (0 ∈ hubFull.connections ∧ 1 ≤ (hubFull.mem 0).send.cap) ∧
    (0 ∉ (hubFull.handle (.unsubscribe 0)).hub.connections ∧
      ((hubFull.handle (.unsubscribe 0)).hub.mem 0).send =
        { (hubFull.mem 0).send with closed := true } ∧
      ((hubFull.handle (.unsubscribe 0)).hub.mem 0).ws = (hubFull.mem 0).ws) ∧
    (0 ∉ (hubFull.handle (.broadcast (msgA "v1"))).hub.connections ∧
      ((hubFull.handle (.broadcast (msgA "v1"))).hub.mem 0).send = (hubFull.mem 0).send ∧
      ((hubFull.handle (.broadcast (msgA "v1"))).hub.mem 0).ws =
        { (hubFull.mem 0).ws with closeCalls := (hubFull.mem 0).ws.closeCalls + 1 }) :=
  have h := removal_paths hubFull 0 (by decide) (by decide)
  have hev : 0 ∉ (hubFull.handle (.broadcast (msgA "v1"))).hub.connections := by decide
  ⟨⟨by decide, by decide⟩, h.1,
    hev, (h.2.1 (msgA "v1") hev).2.2.2.1, (h.2.1 (msgA "v1") hev).2.2.2.2⟩

/-! ## Single steps -/

theorem Hub.closeSend_hub_connections (hub : Hub) (c : Conn) :
    (hub.closeSend c).hub.connections = hub.connections := by
  unfold Hub.closeSend
  simp only []
  split <;> rfl

theorem Hub.closeSend_mem_other (hub : Hub) (c d : Conn) (h : d ≠ c) :
    (hub.closeSend c).hub.mem d = hub.mem d := by
  unfold Hub.closeSend
  simp only []
  split
  · rfl
  · exact Hub.store_mem_other _ _ _ _ h

theorem Hub.closeSend_route (hub : Hub) (c d : Conn) :
    ((hub.closeSend c).hub.mem d).Route = (hub.mem d).Route := by
  by_cases h : d = c
  · subst h
    unfold Hub.closeSend
    simp only []
    split
    · rfl
    · simp [Outcome.hub]
  · rw [Hub.closeSend_mem_other hub c d h]

theorem Hub.drain_connections (hub : Hub) (c : Conn) :
    (hub.drain c).connections = hub.connections := by
  unfold Hub.drain
  simp only []
  split <;> rfl

theorem Hub.drain_mem_other (hub : Hub) (c d : Conn) (h : d ≠ c) :
    (hub.drain c).mem d = hub.mem d := by
  unfold Hub.drain
  simp only []
  split
  · rfl
  · exact Hub.store_mem_other _ _ _ _ h

theorem Hub.drain_static (hub : Hub) (c d : Conn) :
    ((hub.drain c).mem d).Route = (hub.mem d).Route ∧
    ((hub.drain c).mem d).send.closed = (hub.mem d).send.closed := by
  by_cases h : d = c
  · subst h
    unfold Hub.drain
    simp only []
    split
    · exact ⟨rfl, rfl⟩
    · simp
  · rw [Hub.drain_mem_other hub c d h]
    exact ⟨rfl, rfl⟩

@[simp] theorem Hub.reorder_mem (hub : Hub) (l : List Conn) : (hub.reorder l).mem = hub.mem := by
  unfold Hub.reorder
  split <;> rfl

theorem Hub.mem_reorder (hub : Hub) (l : List Conn) (d : Conn) :
    d ∈ (hub.reorder l).connections ↔ d ∈ hub.connections := by
  unfold Hub.reorder
  split
  · rename_i h
    exact h.mem_iff
  · exact Iff.rfl

theorem Hub.drain_accepted (hub : Hub) (c d : Conn) :
    (hub.drain c).accepted d = hub.accepted d := by
  by_cases h : d = c
  · subst h
    unfold Hub.drain Hub.accepted
    simp only []
    split
    · rfl
    · rename_i m rest hb
      simp [hb]
  · unfold Hub.accepted
    rw [Hub.drain_mem_other hub c d h]

/-- The route of a connection object is never written by a step. -/
theorem Hub.exec_route (hub : Hub) (a : Action) (d : Conn) :
    ((hub.exec a).hub.mem d).Route = (hub.mem d).Route := by
  cases a with
  | drain c => exact (Hub.drain_static hub c d).1
  | reorder l => simp [Hub.exec, Outcome.hub]
  | event e =>
    cases e with
    | subscribe c => rfl
    | unsubscribe c => exact Hub.closeSend_route (hub.delete c) c d
    | broadcast m => exact (Hub.broadcast_static hub m d).1

/-- A step adds a connection to the registry only on a registration request
for it. -/
theorem Hub.exec_registered (hub : Hub) (a : Action) (d : Conn)
    (h : d ∈ (hub.exec a).hub.connections) :
    d ∈ hub.connections ∨ a = .event (.subscribe d) := by
  cases a with
  | drain c =>
    left
    simpa [Hub.exec, Outcome.hub, Hub.drain_connections] using h
  | reorder l =>
    left
    exact (Hub.mem_reorder hub l d).mp h
  | event e =>
    cases e with
    | subscribe c =>
      simp only [Hub.exec, Hub.handle, Outcome.hub, Hub.register_connections,
        List.mem_insert_iff] at h
      rcases h with h | h
      · right; rw [h]
      · left; exact h
    | unsubscribe c =>
      left
      simp only [Hub.exec, Hub.handle] at h
      rw [Hub.closeSend_hub_connections] at h
      exact List.mem_of_mem_erase h
    | broadcast m =>
      left
      exact Hub.broadcast_subset hub m d h

/-- A step closes an outbox only on a removal request for its connection,
which is then absent from the registry. -/
theorem Hub.exec_closed (hub : Hub) (a : Action) (d : Conn)
    (h : ((hub.exec a).hub.mem d).send.closed = true) :
    (hub.mem d).send.closed = true ∨
      (a = .event (.unsubscribe d) ∧ d ∉ (hub.exec a).hub.connections) := by
  cases a with
  | drain c =>
    left
    simpa [Hub.exec, Outcome.hub, (Hub.drain_static hub c d).2] using h
  | reorder l =>
    left
    simpa [Hub.exec, Outcome.hub] using h
  | event e =>
    cases e with
    | subscribe c => left; exact h
    | unsubscribe c =>
      by_cases hd : d = c
      · subst hd
        right
        refine ⟨rfl, ?_⟩
        simp only [Hub.exec, Hub.handle]
        rw [Hub.closeSend_hub_connections]
        exact Hub.not_mem_delete hub d
      · left
        simp only [Hub.exec, Hub.handle] at h
        rw [Hub.closeSend_mem_other _ c d hd] at h
        exact h
    | broadcast m =>
      left
      simp only [Hub.exec] at h
      rw [(Hub.broadcast_static hub m d).2] at h
      exact h

theorem Hub.self_mem_states (hub : Hub) (as : List Action) : hub ∈ hub.states as := by
  cases as with
  | nil => simp [Hub.states]
  | cons a as =>
    unfold Hub.states
    split <;> simp

/-! ## Registered connections have open outboxes -/

theorem noReuse_cons (a : Action) (as : List Action) (h : noReuse (a :: as) = true) :
    noReuse as = true ∧ ∀ d, a = .event (.unsubscribe d) → Action.event (.subscribe d) ∉ as := by
  cases a with
  | drain c => exact ⟨h, fun d hd => by cases hd⟩
  | reorder l => exact ⟨h, fun d hd => by cases hd⟩
  | event e =>
    cases e with
    | subscribe c => exact ⟨h, fun d hd => by cases hd⟩
    | broadcast m => exact ⟨h, fun d hd => by cases hd⟩
    | unsubscribe c =>
      simp only [noReuse, Bool.and_eq_true, decide_eq_true_eq] at h
      exact ⟨h.2, fun d hd => by cases hd; exact h.1⟩

theorem Hub.states_open :
    ∀ (as : List Action) (hub : Hub),
      (∀ c ∈ hub.connections, (hub.mem c).send.closed = false) →
      (∀ c, (hub.mem c).send.closed = true → Action.event (.subscribe c) ∉ as) →
      noReuse as = true →
      ∀ s ∈ hub.states as, ∀ c ∈ s.connections, (s.mem c).send.closed = false := by
  intro as
  induction as with
  | nil =>
    intro hub hwf _ _ s hs
    simp only [Hub.states, List.mem_singleton] at hs
    subst hs
    exact hwf
  | cons a as ih =>
    intro hub hwf hcl hproto
    obtain ⟨hproto2, hun⟩ := noReuse_cons a as hproto
    have hreg := Hub.exec_registered hub a
    have hclo := Hub.exec_closed hub a
    -- the state after the step again has every registered outbox open
    have hwf1 : ∀ c ∈ (hub.exec a).hub.connections,
        ((hub.exec a).hub.mem c).send.closed = false := by
      intro c hc
      by_contra hne
      have hct : ((hub.exec a).hub.mem c).send.closed = true := by simpa using hne
      rcases hclo c hct with h | ⟨_, h⟩
      · rcases hreg c hc with h2 | h2
        · rw [hwf c h2] at h; cases h
        · exact hcl c h (h2 ▸ List.mem_cons_self _ _)
      · exact h hc
    have hcl1 : ∀ c, ((hub.exec a).hub.mem c).send.closed = true →
        Action.event (.subscribe c) ∉ as := by
      intro c hct
      rcases hclo c hct with h | ⟨h, _⟩
      · exact fun hm => hcl c h (List.mem_cons_of_mem _ hm)
      · exact hun c h
    intro s hs
    unfold Hub.states at hs
    cases he : hub.exec a with
    | ok hub1 =>
      rw [he] at hs hwf1 hcl1
      simp only [List.mem_cons] at hs
      rcases hs with hs | hs
      · subst hs; exact hwf
      · exact ih hub1 hwf1 hcl1 hproto2 s hs
    | panic hub1 =>
      rw [he] at hs hwf1
      simp only [List.mem_cons, List.mem_singleton, List.not_mem_nil, or_false] at hs
      rcases hs with hs | hs
      · subst hs; exact hwf
      · subst hs; exact hwf1

/-- C6, refuted as stated: from the empty hub, a removal request for
connection 0 followed by a registration request for it leaves 0 in the
registry with a closed outbox, and the next fan-out to its route panics on the
send. -/
theorem reregistration_breaks_invariant :
    (((NewHub mem0).Run [.event (.subscribe 0), .event (.unsubscribe 0),
        .event (.subscribe 0)]).isOk = true ∧
      0 ∈ ((NewHub mem0).Run [.event (.subscribe 0), .event (.unsubscribe 0),
        .event (.subscribe 0)]).hub.connections ∧
      (((NewHub mem0).Run [.event (.subscribe 0), .event (.unsubscribe 0),
        .event (.subscribe 0)]).hub.mem 0).send.closed = true) ∧
    ((NewHub mem0).Run [.event (.subscribe 0), .event (.unsubscribe 0),
        .event (.subscribe 0), .event (.broadcast (msgA "v1"))]).isOk = false := by
  decide

/-- C6 (amended): starting from the empty hub built by `NewHub` over
connection objects whose outboxes are open, for every sequence of
registration, removal and fan-out requests (and drain steps) in which no
connection receives a registration request after a removal request for it,
every state the loop passes through has only connections with open outboxes
in its registry, and a fan-out request handled in such a state completes: it
never pushes onto a closed outbox. -/
theorem registered_outboxes_open (mem : Conn → connection) (as : List Action)
    (hfresh : ∀ c, (mem c).send.closed = false) (hproto : noReuse as = true) :
    ∀ s ∈ (NewHub mem).states as,
      (∀ c ∈ s.connections, (s.mem c).send.closed = false) ∧
      (∀ m, (s.handle (.broadcast m)).isOk = true) := by
  intro s hs
  have hopen := Hub.states_open as (NewHub mem)
    (fun c hc => by cases hc)
    (fun c hc => by
      have : (mem c).send.closed = true := hc
      rw [hfresh c] at this; cases this)
    hproto s hs
  refine ⟨hopen, fun m => ?_⟩
  obtain ⟨s1, e⟩ := Hub.broadcast_isOk s m (fun d hd _ => hopen d hd)
  rw [e]; rfl

theorem registered_outboxes_open_witness :
    ((∀ c, (mem0 c).send.closed = false) ∧
      noReuse [.event (.subscribe 0), .event (.broadcast (msgA "v1")),
        .event (.unsubscribe 0), .event (.broadcast (msgA "v2"))] = true) ∧
    ∀ s ∈ (NewHub mem0).states [.event (.subscribe 0), .event (.broadcast (msgA "v1")),
        .event (.unsubscribe 0), .event (.broadcast (msgA "v2"))],
      (∀ c ∈ s.connections, (s.mem c).send.closed = false) ∧
      (∀ m, (s.handle (.broadcast m)).isOk = true) :=
  have hfresh : ∀ c, (mem0 c).send.closed = false := fun c => by
    unfold mem0; split <;> rfl
  ⟨⟨hfresh, by decide⟩,
    registered_outboxes_open mem0 _ hfresh (by decide)⟩

/-! ## Per-connection FIFO -/

theorem broadcastsFor_cons (r : Route) (a : Action) (as : List Action) :
    broadcastsFor r (a :: as) = broadcastsFor r [a] ++ broadcastsFor r as := by
  cases a with
  | drain c => rfl
  | reorder l => rfl
  | event e =>
    cases e with
    | subscribe c => rfl
    | unsubscribe c => rfl
    | broadcast m =>
      simp only [broadcastsFor]
      split <;> rfl

/-- What one completed step appends to the outbox of a connection that is
registered before and after it. -/
theorem Hub.exec_accepted (hub hub1 : Hub) (a : Action) (c : Conn)
    (he : hub.exec a = .ok hub1) (hc : c ∈ hub.connections) (hc1 : c ∈ hub1.connections) :
    hub1.accepted c = hub.accepted c ++ broadcastsFor (hub.mem c).Route [a] := by
  cases a with
  | drain d =>
    simp only [Hub.exec, Outcome.ok.injEq] at he
    subst he
    simp [broadcastsFor, Hub.drain_accepted]
  | reorder l =>
    simp only [Hub.exec, Outcome.ok.injEq] at he
    subst he
    simp [broadcastsFor, Hub.accepted]
  | event e =>
    cases e with
    | subscribe d =>
      simp only [Hub.exec, Hub.handle, Outcome.ok.injEq] at he
      subst he
      simp [broadcastsFor, Hub.accepted]
    | unsubscribe d =>
      simp only [Hub.exec, Hub.handle] at he
      have hconn := Hub.closeSend_hub_connections (hub.delete d) d
      rw [he] at hconn
      simp only [Outcome.hub] at hconn
      have hdc : c ≠ d := by
        intro h
        subst h
        rw [hconn] at hc1
        exact Hub.not_mem_delete hub c hc1
      have hm := Hub.closeSend_mem_other (hub.delete d) d c hdc
      rw [he] at hm
      simp only [Outcome.hub, Hub.delete_mem] at hm
      simp [broadcastsFor, Hub.accepted, hm]
    | broadcast m =>
      simp only [Hub.exec] at he
      by_cases hr : m.Route.Value = (hub.mem c).Route.Value
      · obtain ⟨_, b, r⟩ := Hub.broadcast_eq_ok hub hub1 m c he hc hr.symm
        rw [r.mp hc1] at b
        simp only [if_true] at b
        simp [broadcastsFor, hr, Hub.accepted, b, connection.push]
      · have hsel : c ∉ hub.connectionsByRoute m.Route := fun h =>
          hr ((Hub.mem_connectionsByRoute hub m.Route c).mp h).2
        have hf := (Hub.broadcast_frame hub m c hsel).1
        rw [he] at hf
        simp only [Outcome.hub] at hf
        simp [broadcastsFor, hr, Hub.accepted, hf]

/-- C4 (per-connection FIFO): if the loop processes a sequence of requests
(interleaved with drain steps) without panic and `c` is registered in every
state passed through, then the messages accepted by the outbox of `c` during
the run (written to its transport or still buffered) are exactly the messages
of the fan-out requests of the sequence whose route value is that of `c`, each
once and in the order the requests were processed. -/
theorem per_connection_fifo (c : Conn) :
    ∀ (as : List Action) (hub hub1 : Hub), hub.Run as = .ok hub1 →
      (∀ s ∈ hub.states as, c ∈ s.connections) →
      hub1.accepted c = hub.accepted c ++ broadcastsFor (hub.mem c).Route as := by
  intro as
  induction as with
  | nil =>
    intro hub hub1 hrun _
    simp only [Hub.Run, Outcome.ok.injEq] at hrun
    subst hrun
    simp [broadcastsFor]
  | cons a as ih =>
    intro hub hub1 hrun hreg
    unfold Hub.Run at hrun
    unfold Hub.states at hreg
    have hroute := Hub.exec_route hub a c
    cases he : hub.exec a with
    | panic h2 => rw [he] at hrun; cases hrun
    | ok h2 =>
      rw [he] at hrun hreg hroute
      simp only [] at hrun
      simp only [Outcome.hub] at hroute
      have hc : c ∈ hub.connections := hreg hub (List.mem_cons_self _ _)
      have hrest : ∀ s ∈ h2.states as, c ∈ s.connections := fun s hs =>
        hreg s (List.mem_cons_of_mem _ hs)
      have hc2 : c ∈ h2.connections := hrest h2 (Hub.self_mem_states h2 as)
      rw [ih h2 hub1 hrun hrest, Hub.exec_accepted hub h2 a c he hc hc2, hroute,
        broadcastsFor_cons (hub.mem c).Route a as, List.append_assoc]

theorem per_connection_fifo_witness :
    ((∃ hub1, hubWide.Run fifoRun = .ok hub1) ∧
      (∀ s ∈ hubWide.states fifoRun, 0 ∈ s.connections)) ∧
    (hubWide.Run fifoRun).hub.accepted 0 = [msgA "v1", msgA "v2", msgA "v3"] :=
  have hrun : hubWide.Run fifoRun = .ok (hubWide.Run fifoRun).hub := by
    have h : (hubWide.Run fifoRun).isOk = true := by decide
    cases hh : hubWide.Run fifoRun with
    | ok x => rfl
    | panic x => rw [hh] at h; cases h
  have hreg : ∀ s ∈ hubWide.states fifoRun, 0 ∈ s.connections := by
    have h : ((hubWide.states fifoRun).all (fun s => decide (0 ∈ s.connections))) = true := by
      decide
    simpa using h
  ⟨⟨⟨_, hrun⟩, hreg⟩,
    (per_connection_fifo 0 fifoRun hubWide _ hrun hreg).trans (by decide)⟩

/-! ## Subscribe and Unsubscribe -/

/-- C9: one call of `Subscribe(c)` performs exactly two operations, in this
order: one `StartWatching` call with the route of `c`, then one send of a
registration request for `c`; one call of `Unsubscribe(c)` likewise performs
one `StopWatching` call with the route of `c`, then one send of a removal
request for `c`. The operations depend on the hub state only through the route
stored in `c`: not on the registry, nor on any other connection. -/
theorem subscribe_unsubscribe_ops (hub : Hub) (c : Conn) :
    hub.Subscribe c = [.StartWatching (hub.mem c).Route, .send (.subscribe c)] ∧
    hub.Unsubscribe c = [.StopWatching (hub.mem c).Route, .send (.unsubscribe c)] ∧
    (∀ r, ((hub.Subscribe c).count (.StartWatching r) =
        if r = (hub.mem c).Route then 1 else 0) ∧
      (hub.Subscribe c).count (.StopWatching r) = 0) ∧
    (∀ e, (hub.Subscribe c).count (.send e) = if e = .subscribe c then 1 else 0) ∧
    (∀ r, ((hub.Unsubscribe c).count (.StopWatching r) =
        if r = (hub.mem c).Route then 1 else 0) ∧
      (hub.Unsubscribe c).count (.StartWatching r) = 0) ∧
    (∀ e, (hub.Unsubscribe c).count (.send e) = if e = .unsubscribe c then 1 else 0) ∧
    (∀ (l : List Conn) (hl : l.Nodup) (mem2 : Conn → connection),
      (Hub.mk l hl (fun d => if d = c then hub.mem c else mem2 d)).Subscribe c
        = hub.Subscribe c ∧
      (Hub.mk l hl (fun d => if d = c then hub.mem c else mem2 d)).Unsubscribe c
        = hub.Unsubscribe c) := by
  refine ⟨rfl, rfl, ?_, ?_, ?_, ?_, ?_⟩
  · intro r
    by_cases h : r = (hub.mem c).Route
    · subst h; simp [Hub.Subscribe]
    · have h2 : ¬ (hub.mem c).Route = r := fun x => h x.symm
      simp [Hub.Subscribe, h, h2]
  · intro e
    by_cases h : e = .subscribe c
    · subst h; simp [Hub.Subscribe]
    · have h2 : ¬ Event.subscribe c = e := fun x => h x.symm
      simp [Hub.Subscribe, h, h2]
  · intro r
    by_cases h : r = (hub.mem c).Route
    · subst h; simp [Hub.Unsubscribe]
    · have h2 : ¬ (hub.mem c).Route = r := fun x => h x.symm
      simp [Hub.Unsubscribe, h, h2]
  · intro e
    by_cases h : e = .unsubscribe c
    · subst h; simp [Hub.Unsubscribe]
    · have h2 : ¬ Event.unsubscribe c = e := fun x => h x.symm
      simp [Hub.Unsubscribe, h, h2]
  · intro l hl mem2
    simp [Hub.Subscribe, Hub.Unsubscribe]

end update

namespace orchestrator

variable {R D I B P F : Type}

/-! ## Paging of the latest items -/

end orchestrator
